import Mathlib

/-!
karma-go: the event extractor, the dispatcher loop and the bootstrap.

A shallow embedding of `events/handler.go` and of `main.go`.

* Go strings are Lean strings: the strings the handler looks at come out of
  the JSON decoder, so they are valid UTF-8.  `strings.TrimSpace` and
  `strings.HasPrefix` are written over the list of characters.
* Go interface values with a type tag (event payloads, blocks, rich-text
  elements, section elements) are inductive types, one constructor per Go type
  the code looks at and one for everything else.  Pointers are non-nil, as the
  transport and the decoder build them, and the tag of a section element names
  its Go type, so the switch on the tag followed by the type assertion is a
  match on the constructor.
* `json.Unmarshal` belongs to the standard library: the extractor takes it as
  the parameter `unmarshal`, over any representation `Raw` of the body.
* `Karma.Change` is an `int64` that holds `-1`, `0` or `1`: it is an `Int`.
* The loop of `Receive` runs over the list of cases its successive `select`
  statements take and threads the counter store, the list of `IncrBy` calls
  issued and the log lines written.  When the list is used up the loop is
  waiting in its `select`.  `ReceiveWaits` puts under it what each `select`
  finds: a pending event, a closed `ctx.Done()`, and the pick of the runtime
  when both cases can proceed.
* `main` is the list of commands a run sends to the counter store.
-/

namespace KarmaGo

/-! ## Strings -/

/-- Go `unicode.IsSpace`: the Latin-1 spaces and the other code points with
the Unicode White_Space property. -/
def isSpace (c : Char) : Bool :=
  let n := c.toNat
  (0x09 ≤ n && n ≤ 0x0D) || n == 0x20 || n == 0x85 || n == 0xA0 || n == 0x1680 ||
  (0x2000 ≤ n && n ≤ 0x200A) || n == 0x2028 || n == 0x2029 || n == 0x202F ||
  n == 0x205F || n == 0x3000

/-- Go `strings.TrimSpace`: the string without its leading and trailing white
space. -/
def TrimSpace (s : String) : String :=
  ⟨((s.data.dropWhile isSpace).reverse.dropWhile isSpace).reverse⟩

/-- Go `strings.HasPrefix`. -/
def HasPrefix (s pre : String) : Bool :=
  pre.data.isPrefixOf s.data

/-! ## Constants of the slack package -/

/-- Go `slack.TYPE_MESSAGE`. -/
def TYPE_MESSAGE : String := "message"

/-- Go `slack.MBTRichText`. -/
def MBTRichText : String := "rich_text"

/-- Go `slack.RTESection`. -/
def RTESection : String := "rich_text_section"

/-! ## Data model -/

/-- The record `Karma` of `handler.go`; `Change` is an `int64` that only ever
holds `-1`, `0` or `1`. -/
structure Karma where
  UserID : String
  Change : Int
  deriving DecidableEq, Repr

/-- An element of a rich-text section (`slack.RichTextSectionElement`): a text
run (tag `text`), a user mention (tag `user`), or an element of any other kind
(channel, emoji, link, ...), whose tag is neither. -/
inductive RichTextSectionElement where
  | text (Text : String)
  | user (UserID : String)
  | other
  deriving DecidableEq, Repr

/-- An element of a rich-text block (`slack.RichTextElement`): a section
(`*slack.RichTextSection`, tag `rich_text_section`) or another Go type (list,
quote, preformatted, unknown) with its tag. -/
inductive RichTextElement where
  | richTextSection (Elements : List RichTextSectionElement)
  | other (elementType : String)
  deriving DecidableEq, Repr

/-- A message block (`slack.Block`): a `*slack.RichTextBlock` (tag
`rich_text`) or another Go type with its tag. -/
inductive Block where
  | richText (Elements : List RichTextElement)
  | other (blockType : String)
  deriving DecidableEq, Repr

/-- Go `slack.Blocks`. -/
structure Blocks where
  BlockSet : List Block
  deriving DecidableEq, Repr

/-- The part of `slack.Msg` the handler reads. -/
structure Msg where
  Blocks : Blocks
  deriving DecidableEq, Repr

/-- The dynamic value of `EventsAPIEvent.Data`: a
`*slackevents.EventsAPICallbackEvent` with its `InnerEvent` body (a
`*json.RawMessage`, possibly nil), or anything else. -/
inductive CallbackData (Raw : Type) where
  | callback (InnerEvent : Option Raw)
  | other

/-- Go `slackevents.EventsAPIInnerEvent`, reduced to its type tag. -/
structure EventsAPIInnerEvent where
  typ : String

/-- Go `slackevents.EventsAPIEvent`. -/
structure EventsAPIEvent (Raw : Type) where
  InnerEvent : EventsAPIInnerEvent
  Data : CallbackData Raw

/-- The dynamic value of `socketmode.Event.Data`. -/
inductive EventData (Raw : Type) where
  | eventsAPI (data : EventsAPIEvent Raw)
  | other

/-- Go `socketmode.Event`. -/
structure Event (Raw : Type) where
  Data : EventData Raw

/-- The two errors `handleEvent` builds. -/
inductive HandlerError where
  | unexpectedType
  | decodeFailed (cause : String)
  deriving DecidableEq, Repr

/-! ## The extractor -/

/-- Go `Block.BlockType()`. -/
def Block.BlockType : Block → String
  | .richText _ => MBTRichText
  | .other t => t

/-- Go `RichTextElement.RichTextElementType()`. -/
def RichTextElement.RichTextElementType : RichTextElement → String
  | .richTextSection _ => RTESection
  | .other t => t

/-- The body of the innermost loop of `handleEvent` (lines 135-150): the
switch on the section element, on the pair `(mentionedUser, text)`. -/
def scanSectionEl (acc : String × String) (sectionEl : RichTextSectionElement) :
    String × String :=
  match sectionEl with
  | .user UserID => (UserID, acc.2)
  | .text Text => (acc.1, TrimSpace Text)
  | .other => acc

/-- The body of the middle loop (lines 125-151). -/
def scanElement (acc : String × String) (element : RichTextElement) : String × String :=
  if element.RichTextElementType ≠ RTESection then acc
  else
    match element with
    | .richTextSection Elements => Elements.foldl scanSectionEl acc
    | .other _ => acc

/-- The body of the outer loop (lines 115-152). -/
def scanBlock (acc : String × String) (block : Block) : String × String :=
  if block.BlockType ≠ MBTRichText then acc
  else
    match block with
    | .richText Elements => Elements.foldl scanElement acc
    | .other _ => acc

/-- Lines 109-153 of `handleEvent`: the pair `(mentionedUser, text)` after the
three nested loops, both starting empty. -/
def scan (msg : Msg) : String × String :=
  msg.Blocks.BlockSet.foldl scanBlock ("", "")

/-- Lines 155-170 of `handleEvent`: the result built from the retained pair. -/
def karmaOf (mentionedUser text : String) : Option Karma × Option HandlerError :=
  if mentionedUser = "" ∨ text = "" then (none, none)
  else
    (some
      { UserID := mentionedUser
        Change := if HasPrefix text "++" then 1 else if HasPrefix text "--" then -1 else 0 },
     none)

/-- Go `handleEvent`: the pair `(karma, err)`, with `none` for `nil`. -/
def handleEvent {Raw : Type} (unmarshal : Raw → Except String Msg) (evt : Event Raw) :
    Option Karma × Option HandlerError :=
  match evt.Data with
  | .other => (none, none)
  | .eventsAPI data =>
    if data.InnerEvent.typ ≠ TYPE_MESSAGE then (none, none)
    else
      match data.Data with
      | .other => (none, some .unexpectedType)
      | .callback none => (none, some .unexpectedType)
      | .callback (some body) =>
        match unmarshal body with
        | .error cause => (none, some (.decodeFailed cause))
        | .ok msg => karmaOf (scan msg).1 (scan msg).2

/-! ## The dispatcher -/

/-- One `h.redis.IncrBy(ctx, key, delta)` call. -/
structure IncrCall where
  key : String
  delta : Int
  deriving DecidableEq, Repr

/-- The lines `Receive` writes to the log. -/
inductive LogLine where
  | handleFailed (err : HandlerError)
  | karma (UserID : String) (Change : Int)
  | adjustFailed (UserID : String) (cause : String)
  deriving DecidableEq, Repr

/-- What `Receive` acts on: the counter store, the `IncrBy` calls issued so
far and the log, oldest first. -/
structure World (σ : Type) where
  store : σ
  calls : List IncrCall
  logs : List LogLine

/-- The case a `select` of `Receive` takes: an event read from
`h.socket.Events`, or `ctx.Done()`. -/
inductive Selected (Raw : Type) where
  | event (e : Event Raw)
  | done

/-- Where `Receive` stands once the given selections are used up: blocked in
its `select`, or returned with an `error` value (`none` for `nil`). -/
inductive Outcome where
  | waiting
  | returned (err : Option String)
  deriving DecidableEq, Repr

/-- Go `Handler.Receive`, over the cases its successive `select` statements
take.  `IncrBy` is the counter store: from its state, a key and a delta it
gives the next state and the error of the call, if any. -/
def Receive {Raw σ : Type} (unmarshal : Raw → Except String Msg)
    (IncrBy : σ → String → Int → σ × Option String) :
    List (Selected Raw) → World σ → World σ × Outcome
  | [], w => (w, .waiting)
  | .done :: _, w => (w, .returned none)
  | .event event :: rest, w =>
    match handleEvent unmarshal event with
    | (_, some err) =>
      Receive unmarshal IncrBy rest { w with logs := w.logs ++ [.handleFailed err] }
    | (none, none) => Receive unmarshal IncrBy rest w
    | (some karma, none) =>
      match IncrBy w.store karma.UserID karma.Change with
      | (store, some cause) =>
        Receive unmarshal IncrBy rest
          { store := store
            calls := w.calls ++ [⟨karma.UserID, karma.Change⟩]
            logs := w.logs ++ [.karma karma.UserID karma.Change,
              .adjustFailed karma.UserID cause] }
      | (store, none) =>
        Receive unmarshal IncrBy rest
          { store := store
            calls := w.calls ++ [⟨karma.UserID, karma.Change⟩]
            logs := w.logs ++ [.karma karma.UserID karma.Change] }

/-- A counter store held in memory, whose increments always succeed. -/
def memIncrBy (store : String → Int) (key : String) (delta : Int) :
    (String → Int) × Option String :=
  (fun k => if k = key then store k + delta else store k, none)

/-- The world before `Receive` starts, over the in-memory store. -/
def emptyWorld : World (String → Int) :=
  { store := fun _ => 0, calls := [], logs := [] }

/-! ## Specification-side notions -/

/-- The section elements of a message in reading order: the elements of every
section of every rich-text block, concatenated. -/
def sectionElements (msg : Msg) : List RichTextSectionElement :=
  msg.Blocks.BlockSet.flatMap fun block =>
    match block with
    | .richText Elements =>
      Elements.flatMap fun element =>
        match element with
        | .richTextSection sectionEls => sectionEls
        | .other _ => []
    | .other _ => []

/-- The user a section element mentions, if it is a user element. -/
def userOf : RichTextSectionElement → Option String
  | .user UserID => some UserID
  | _ => none

/-- The text of a section element, if it is a text element. -/
def textOf : RichTextSectionElement → Option String
  | .text Text => some Text
  | _ => none

/-- The user of the last user element of a list of section elements. -/
def lastUser (els : List RichTextSectionElement) : Option String :=
  (els.filterMap userOf).getLast?

/-- The text of the last text element of a list of section elements. -/
def lastText (els : List RichTextSectionElement) : Option String :=
  (els.filterMap textOf).getLast?

/-- The events `Receive` takes before the first `ctx.Done()` case. -/
def eventsBeforeDone {Raw : Type} : List (Selected Raw) → List (Event Raw)
  | [] => []
  | .done :: _ => []
  | .event e :: rest => e :: eventsBeforeDone rest

/-- The records `handleEvent` returns on a list of events, in order. -/
def recordsOf {Raw : Type} (unmarshal : Raw → Except String Msg) (evs : List (Event Raw)) :
    List Karma :=
  evs.filterMap fun e => (handleEvent unmarshal e).1

/-- The `IncrBy` call that applies a record. -/
def callOf (karma : Karma) : IncrCall :=
  ⟨karma.UserID, karma.Change⟩

/-! ## Sample inputs -/

/-- A message of one rich-text block holding one section. -/
def sectionMsg (els : List RichTextSectionElement) : Msg :=
  ⟨⟨[.richText [.richTextSection els]]⟩⟩

/-- The message event whose body is the given decoding outcome; the decoder to
use with it is `id`. -/
def messageEvent (body : Except String Msg) : Event (Except String Msg) :=
  ⟨.eventsAPI ⟨⟨TYPE_MESSAGE⟩, .callback (some body)⟩⟩

/-- A message event whose payload is not a callback event. -/
def malformedEvent : Event (Except String Msg) :=
  ⟨.eventsAPI ⟨⟨TYPE_MESSAGE⟩, .other⟩⟩

/-- The message with mention `U123` and text `hello`, as a message event. -/
def helloEvent : Event (Except String Msg) :=
  messageEvent (.ok (sectionMsg [.user "U123", .text "hello"]))

/-- A message of two blocks with several mentions and texts. -/
def thanksMsg (sign : String) : Msg :=
  ⟨⟨[.other "header",
     .richText [.richTextSection [.text "hi ", .user "U999", .text " thanks "],
       .other "rich_text_list",
       .richTextSection [.user "U123", .other, .text sign]]]⟩⟩

/-! ## The bootstrap (`main.go`) -/

/-- The client `connect` builds: `slack.New` and `socketmode.New` keep the two
tokens and cannot fail. -/
structure Client where
  botToken : String
  appToken : String
  deriving DecidableEq, Repr

/-- The four errors `connect` builds. -/
inductive ConnectError where
  | appTokenNotProvided
  | appTokenNotValid
  | botTokenNotProvided
  | botTokenNotValid
  deriving DecidableEq, Repr

/-- Go `connect`: the pair `(client, err)`, with `none` for `nil`. -/
def connect (appToken botToken : String) : Option Client × Option ConnectError :=
  if appToken = "" then (none, some .appTokenNotProvided)
  else if ¬ HasPrefix appToken "xapp-" then (none, some .appTokenNotValid)
  else if botToken = "" then (none, some .botTokenNotProvided)
  else if ¬ HasPrefix botToken "xoxb-" then (none, some .botTokenNotValid)
  else (some { botToken := botToken, appToken := appToken }, none)

/-- A command the program sends to the counter store. -/
inductive RedisCmd where
  | FlushDB
  | Ping
  | IncrBy (key : String) (delta : Int)
  deriving DecidableEq, Repr

/-- Go `events.New(WithSocket(socket), WithRedis(rdb))`: the options run in
order, `AuthTest` first and `Ping` second, and the first error stops them.  The
arguments are the errors the two probes answer with; the result is the store
commands sent and the error of `New`. -/
def New (authTestErr pingErr : Option String) : List RedisCmd × Option String :=
  match authTestErr with
  | some cause => ([], some cause)
  | none =>
    match pingErr with
    | some cause => ([.Ping], some cause)
    | none => ([.Ping], none)

/-- Go `main`, as the list of commands it sends to the counter store over a
run: nothing when `connect` fails (`log.Fatalf`), else `FlushDB` (line 33, its
error dropped), then the commands of `New`, then, when `New` succeeds, the
`IncrBy` calls of `Receive` over the cases its `select` statements take. -/
def main {Raw σ : Type} (unmarshal : Raw → Except String Msg)
    (IncrBy : σ → String → Int → σ × Option String) (appToken botToken : String)
    (authTestErr pingErr : Option String) (sel : List (Selected Raw)) (store : σ) :
    List RedisCmd :=
  match connect appToken botToken with
  | (_, some _) => []
  | (_, none) =>
    .FlushDB ::
      match New authTestErr pingErr with
      | (cmds, some _) => cmds
      | (cmds, none) =>
        cmds ++
          (Receive unmarshal IncrBy sel { store := store, calls := [], logs := [] }).1.calls.map
            fun c => .IncrBy c.key c.delta

/-- The least value of an `int64`, the range of a Redis counter. -/
def minInt64 : Int := -9223372036854775808

/-- The greatest value of an `int64`. -/
def maxInt64 : Int := 9223372036854775807

/-- The effect of a command on the integer entries of the counter store:
`FLUSHDB` deletes every entry, `PING` changes nothing, `INCRBY` adds the delta
to the entry of the key, taken as `0` when missing; when the sum leaves the
`int64` range Redis refuses the increment and the entries stay as they are. -/
def applyCmd (entries : String → Option Int) : RedisCmd → String → Option Int
  | .FlushDB => fun _ => none
  | .Ping => entries
  | .IncrBy key delta => fun k =>
    if k = key then
      if minInt64 ≤ (entries k).getD 0 + delta ∧ (entries k).getD 0 + delta ≤ maxInt64 then
        some ((entries k).getD 0 + delta)
      else entries k
    else entries k

/-- The entries of the counter store after a list of commands. -/
def applyCmds (entries : String → Option Int) (cmds : List RedisCmd) : String → Option Int :=
  cmds.foldl applyCmd entries

/-! ## The `select` of `Receive` -/

/-- What a `select` of `Receive` finds when it runs: the event at the head of
`h.socket.Events`, if one is pending, whether `ctx.Done()` is closed, and the
case the runtime picks when both can proceed (Go picks one at random). -/
structure Wait (Raw : Type) where
  pending : Option (Event Raw)
  cancelled : Bool
  pickEvent : Bool

/-- The case a `select` takes: the only one that can proceed, the runtime's
pick when both can, none while neither can (the `select` stays blocked). -/
def Wait.selected {Raw : Type} (wt : Wait Raw) : Option (Selected Raw) :=
  match wt.pending, wt.cancelled with
  | some e, false => some (.event e)
  | some e, true => some (if wt.pickEvent then .event e else .done)
  | none, true => some .done
  | none, false => none

/-- `Receive` over what its successive `select` statements find. -/
def ReceiveWaits {Raw σ : Type} (unmarshal : Raw → Except String Msg)
    (IncrBy : σ → String → Int → σ × Option String) (waits : List (Wait Raw)) (w : World σ) :
    World σ × Outcome :=
  Receive unmarshal IncrBy (waits.filterMap Wait.selected) w

/-! ## Specification-side notions: adjacency -/

/-- The sections of a message: the section elements of every section of every
rich-text block, section by section. -/
def sections (msg : Msg) : List (List RichTextSectionElement) :=
  msg.Blocks.BlockSet.flatMap fun block =>
    match block with
    | .richText Elements =>
      Elements.filterMap fun element =>
        match element with
        | .richTextSection sectionEls => some sectionEls
        | .other _ => none
    | .other _ => []

/-- The texts of the text elements that stand immediately after or immediately
before a mention of `U` in a section: the pairs of neighbours are those of the
section zipped with its tail. -/
def adjacentTexts (U : String) (sectionEls : List RichTextSectionElement) : List String :=
  (sectionEls.zip sectionEls.tail).filterMap fun pair =>
    match pair with
    | (.user u, .text t) => if u = U then some t else none
    | (.text t, .user u) => if u = U then some t else none
    | _ => none

/-- The sample message with mention `U123`, an emoji and the text `++`. -/
def emojiMsg : Msg :=
  sectionMsg [.user "U123", .other, .text "++"]

/-! ## Lemmas on the scan -/

theorem foldl_scanSectionEl (els : List RichTextSectionElement) (acc : String × String) :
    els.foldl scanSectionEl acc =
      ((lastUser els).getD acc.1, ((lastText els).map TrimSpace).getD acc.2) := by
  induction els using List.reverseRecOn with
  | nil => simp [lastUser, lastText]
  | append_singleton els el ih =>
    rw [List.foldl_append, ih]
    cases el <;>
      simp [scanSectionEl, lastUser, lastText, userOf, textOf, List.filterMap_append]

theorem foldl_scanElement (elements : List RichTextElement) (acc : String × String) :
    elements.foldl scanElement acc =
      (elements.flatMap fun element =>
        match element with
        | .richTextSection sectionEls => sectionEls
        | .other _ => []).foldl scanSectionEl acc := by
  induction elements generalizing acc with
  | nil => rfl
  | cons element rest ih =>
    rw [List.foldl_cons, ih, List.flatMap_cons, List.foldl_append]
    cases element <;> simp [scanElement, RichTextElement.RichTextElementType]

theorem foldl_scanBlock (blocks : List Block) (acc : String × String) :
    blocks.foldl scanBlock acc = (sectionElements ⟨⟨blocks⟩⟩).foldl scanSectionEl acc := by
  induction blocks generalizing acc with
  | nil => rfl
  | cons block rest ih =>
    rw [List.foldl_cons, ih]
    simp only [sectionElements, List.flatMap_cons, List.foldl_append]
    cases block <;> simp [scanBlock, Block.BlockType, foldl_scanElement]

/-- The nested loops retain the last user element and the trimmed last text
element of the section elements. -/
theorem scan_eq_last (msg : Msg) :
    scan msg =
      ((lastUser (sectionElements msg)).getD "",
       ((lastText (sectionElements msg)).map TrimSpace).getD "") := by
  unfold scan
  rw [foldl_scanBlock, foldl_scanSectionEl]

/-! ## Lemmas on the extractor -/

/-- On a message event with a callback payload whose body decodes, the result
is built from the scan. -/
theorem handleEvent_decoded {Raw : Type} (unmarshal : Raw → Except String Msg)
    (evt : Event Raw) (data : EventsAPIEvent Raw) (body : Raw) (msg : Msg)
    (hevt : evt.Data = .eventsAPI data) (htyp : data.InnerEvent.typ = TYPE_MESSAGE)
    (hdata : data.Data = .callback (some body)) (hdec : unmarshal body = .ok msg) :
    handleEvent unmarshal evt = karmaOf (scan msg).1 (scan msg).2 := by
  simp [handleEvent, hevt, htyp, hdata, hdec]

theorem HasPrefix_ne_empty (s pre : String) (hpre : pre ≠ "") (h : HasPrefix s pre = true) :
    s ≠ "" := by
  intro hs
  subst hs
  apply hpre
  have : pre.data = [] := by
    cases hp : pre.data with
    | nil => rfl
    | cons c cs => simp [HasPrefix, hp] at h
  exact String.ext this

theorem HasPrefix_minus_not_plus (s : String) (h : HasPrefix s "--" = true) :
    HasPrefix s "++" = false := by
  unfold HasPrefix at *
  have hm : "--".data = ['-', '-'] := rfl
  have hp : "++".data = ['+', '+'] := rfl
  rw [hm] at h
  rw [hp]
  generalize s.data = l at h ⊢
  cases l with
  | nil => simp [List.isPrefixOf] at h
  | cons c cs =>
    simp only [List.isPrefixOf, Bool.and_eq_true, beq_iff_eq] at h
    have hc : c = '-' := h.1.symm
    subst hc
    rfl

theorem karmaOf_plus (U text : String) (hU : U ≠ "") (h : HasPrefix text "++" = true) :
    karmaOf U text = (some ⟨U, 1⟩, none) := by
  have ht : text ≠ "" := HasPrefix_ne_empty text "++" (by decide) h
  simp [karmaOf, hU, ht, h]

theorem karmaOf_minus (U text : String) (hU : U ≠ "") (h : HasPrefix text "--" = true) :
    karmaOf U text = (some ⟨U, -1⟩, none) := by
  have ht : text ≠ "" := HasPrefix_ne_empty text "--" (by decide) h
  simp [karmaOf, hU, ht, h, HasPrefix_minus_not_plus text h]

theorem karmaOf_neither (U text : String) (hplus : HasPrefix text "++" = false)
    (hminus : HasPrefix text "--" = false) :
    karmaOf U text = if U = "" ∨ text = "" then (none, none) else (some ⟨U, 0⟩, none) := by
  simp [karmaOf, hplus, hminus]

theorem karmaOf_change (U text : String) (k : Karma) (h : (karmaOf U text).1 = some k) :
    k.Change = 1 ∨ k.Change = -1 ∨ k.Change = 0 := by
  unfold karmaOf at h
  split at h
  · simp at h
  · simp only [Option.some.injEq] at h
    subst h
    by_cases h1 : HasPrefix text "++" = true
    · simp [h1]
    · by_cases h2 : HasPrefix text "--" = true <;> simp [h1, h2]

/-- Any record `handleEvent` returns comes from `karmaOf` on a scanned message. -/
theorem handleEvent_some {Raw : Type} (unmarshal : Raw → Except String Msg) (evt : Event Raw)
    (k : Karma) (h : (handleEvent unmarshal evt).1 = some k) :
    ∃ msg, handleEvent unmarshal evt = karmaOf (scan msg).1 (scan msg).2 := by
  obtain ⟨d⟩ := evt
  cases d with
  | other => simp [handleEvent] at h
  | eventsAPI data =>
    obtain ⟨⟨t⟩, payload⟩ := data
    by_cases ht : t = TYPE_MESSAGE
    · cases payload with
      | other => simp [handleEvent, ht] at h
      | callback InnerEvent =>
        cases InnerEvent with
        | none => simp [handleEvent, ht] at h
        | some body =>
          cases hdec : unmarshal body with
          | error cause => simp [handleEvent, ht, hdec] at h
          | ok msg => exact ⟨msg, by simp [handleEvent, ht, hdec]⟩
    · simp [handleEvent, ht] at h

/-- A result of `handleEvent` never holds both a record and an error. -/
theorem handleEvent_err {Raw : Type} (unmarshal : Raw → Except String Msg) (evt : Event Raw)
    (err : HandlerError) (h : (handleEvent unmarshal evt).2 = some err) :
    (handleEvent unmarshal evt).1 = none := by
  cases hk : (handleEvent unmarshal evt).1 with
  | none => rfl
  | some k =>
    obtain ⟨msg, hmsg⟩ := handleEvent_some unmarshal evt k hk
    rw [hmsg] at h
    unfold karmaOf at h
    split at h <;> simp at h

theorem lastUser_none (els : List RichTextSectionElement)
    (h : ∀ u, RichTextSectionElement.user u ∉ els) : lastUser els = none := by
  unfold lastUser
  rw [List.getLast?_eq_none_iff, List.filterMap_eq_nil_iff]
  intro el hel
  cases el with
  | user u => exact absurd hel (h u)
  | text t => rfl
  | other => rfl

theorem lastText_none (els : List RichTextSectionElement)
    (h : ∀ t, RichTextSectionElement.text t ∉ els) : lastText els = none := by
  unfold lastText
  rw [List.getLast?_eq_none_iff, List.filterMap_eq_nil_iff]
  intro el hel
  cases el with
  | text t => exact absurd hel (h t)
  | user u => rfl
  | other => rfl

/-! ## Lemmas on the dispatcher -/

theorem eventsBeforeDone_map {Raw : Type} (evs : List (Event Raw)) (rest : List (Selected Raw)) :
    eventsBeforeDone (evs.map Selected.event ++ Selected.done :: rest) = evs := by
  induction evs with
  | nil => rfl
  | cons e evs ih => simp [eventsBeforeDone, ih]

/-- One turn of the loop on an event, by the result of `handleEvent`. -/
theorem Receive_event_err {Raw σ : Type} (unmarshal : Raw → Except String Msg)
    (IncrBy : σ → String → Int → σ × Option String) (e : Event Raw) (err : HandlerError)
    (rest : List (Selected Raw)) (w : World σ) (h : (handleEvent unmarshal e).2 = some err) :
    Receive unmarshal IncrBy (.event e :: rest) w =
      Receive unmarshal IncrBy rest { w with logs := w.logs ++ [.handleFailed err] } := by
  rw [Receive]
  cases hr : handleEvent unmarshal e with
  | mk k r =>
    rw [hr] at h
    simp only at h
    subst h
    cases k <;> rfl

theorem Receive_event_absent {Raw σ : Type} (unmarshal : Raw → Except String Msg)
    (IncrBy : σ → String → Int → σ × Option String) (e : Event Raw)
    (rest : List (Selected Raw)) (w : World σ) (h : handleEvent unmarshal e = (none, none)) :
    Receive unmarshal IncrBy (.event e :: rest) w = Receive unmarshal IncrBy rest w := by
  rw [Receive, h]

theorem Receive_event_record {Raw σ : Type} (unmarshal : Raw → Except String Msg)
    (IncrBy : σ → String → Int → σ × Option String) (e : Event Raw) (k : Karma)
    (rest : List (Selected Raw)) (w : World σ) (h : handleEvent unmarshal e = (some k, none)) :
    ∃ w1 : World σ, w1.calls = w.calls ++ [callOf k] ∧
      Receive unmarshal IncrBy (.event e :: rest) w = Receive unmarshal IncrBy rest w1 := by
  rw [Receive, h]
  simp only []
  cases IncrBy w.store k.UserID k.Change with
  | mk store r =>
    cases r with
    | none =>
      exact ⟨{ store := store, calls := w.calls ++ [⟨k.UserID, k.Change⟩],
               logs := w.logs ++ [.karma k.UserID k.Change] }, rfl, rfl⟩
    | some cause =>
      exact ⟨{ store := store, calls := w.calls ++ [⟨k.UserID, k.Change⟩],
               logs := w.logs ++ [.karma k.UserID k.Change, .adjustFailed k.UserID cause] },
             rfl, rfl⟩

/-- The calls issued are the records of the events taken before cancellation,
in order, after the calls already there. -/
theorem Receive_calls {Raw σ : Type} (unmarshal : Raw → Except String Msg)
    (IncrBy : σ → String → Int → σ × Option String) (sel : List (Selected Raw)) (w : World σ) :
    (Receive unmarshal IncrBy sel w).1.calls =
      w.calls ++ (recordsOf unmarshal (eventsBeforeDone sel)).map callOf := by
  induction sel generalizing w with
  | nil => simp [Receive, eventsBeforeDone, recordsOf]
  | cons s rest ih =>
    cases s with
    | done => simp [Receive, eventsBeforeDone, recordsOf]
    | event e =>
      cases hr : handleEvent unmarshal e with
      | mk k r =>
        cases r with
        | some err =>
          have h2 : (handleEvent unmarshal e).2 = some err := by rw [hr]
          have h1 := handleEvent_err unmarshal e err h2
          rw [Receive_event_err unmarshal IncrBy e err rest w h2, ih]
          simp [eventsBeforeDone, recordsOf, h1]
        | none =>
          cases k with
          | none =>
            rw [Receive_event_absent unmarshal IncrBy e rest w hr, ih]
            simp [eventsBeforeDone, recordsOf, hr]
          | some k =>
            obtain ⟨w1, hw1, hrec⟩ := Receive_event_record unmarshal IncrBy e k rest w hr
            rw [hrec, ih, hw1]
            simp [eventsBeforeDone, recordsOf, hr]

theorem length_recordsOf {Raw : Type} (unmarshal : Raw → Except String Msg)
    (evs : List (Event Raw)) :
    (recordsOf unmarshal evs).length =
      evs.countP fun e => (handleEvent unmarshal e).1.isSome := by
  induction evs with
  | nil => rfl
  | cons e evs ih =>
    unfold recordsOf at ih ⊢
    cases h : (handleEvent unmarshal e).1 with
    | none => simp [List.filterMap_cons, h, ih]
    | some k => simp [List.filterMap_cons, h, ih]

/-! ## The extractor: results on message events -/

/-- C1: on a message event with a callback payload whose body decodes to `msg`,
if the last user element of the section elements mentions a non-empty `U` and
the trimmed last text element starts with `++`, then the scan retains exactly
that mention and that trimmed text, and `handleEvent` returns the record
`{U, +1}` with a nil error. -/
theorem handleEvent_plus_plus {Raw : Type} (unmarshal : Raw → Except String Msg)
    (evt : Event Raw) (data : EventsAPIEvent Raw) (body : Raw) (msg : Msg) (U t : String)
    (hevt : evt.Data = .eventsAPI data) (htyp : data.InnerEvent.typ = TYPE_MESSAGE)
    (hdata : data.Data = .callback (some body)) (hdec : unmarshal body = .ok msg)
    (hU : lastUser (sectionElements msg) = some U) (hne : U ≠ "")
    (ht : lastText (sectionElements msg) = some t)
    (hpre : HasPrefix (TrimSpace t) "++" = true) :
    scan msg = (U, TrimSpace t) ∧
      handleEvent unmarshal evt = (some { UserID := U, Change := 1 }, none) := by
  have hscan : scan msg = (U, TrimSpace t) := by
    rw [scan_eq_last, hU, ht]
    rfl
  refine ⟨hscan, ?_⟩
  rw [handleEvent_decoded unmarshal evt data body msg hevt htyp hdata hdec, hscan]
  exact karmaOf_plus U (TrimSpace t) hne hpre

theorem handleEvent_plus_plus_witness :
    scan (thanksMsg " ++ great") = ("U123", "++ great") ∧
      handleEvent id (messageEvent (.ok (thanksMsg " ++ great"))) =
        (some { UserID := "U123", Change := 1 }, none) :=
  handleEvent_plus_plus id (messageEvent (.ok (thanksMsg " ++ great")))
    ⟨⟨TYPE_MESSAGE⟩, .callback (some (.ok (thanksMsg " ++ great")))⟩
    (.ok (thanksMsg " ++ great")) (thanksMsg " ++ great") "U123" " ++ great"
    rfl rfl rfl rfl (by decide) (by decide) (by decide) (by decide)

/-- C2: on a message event with a callback payload whose body decodes to `msg`,
if the last user element of the section elements mentions a non-empty `U` and
the trimmed last text element starts with `--`, then `handleEvent` returns the
record `{U, -1}` with a nil error. -/
theorem handleEvent_minus_minus {Raw : Type} (unmarshal : Raw → Except String Msg)
    (evt : Event Raw) (data : EventsAPIEvent Raw) (body : Raw) (msg : Msg) (U t : String)
    (hevt : evt.Data = .eventsAPI data) (htyp : data.InnerEvent.typ = TYPE_MESSAGE)
    (hdata : data.Data = .callback (some body)) (hdec : unmarshal body = .ok msg)
    (hU : lastUser (sectionElements msg) = some U) (hne : U ≠ "")
    (ht : lastText (sectionElements msg) = some t)
    (hpre : HasPrefix (TrimSpace t) "--" = true) :
    scan msg = (U, TrimSpace t) ∧
      handleEvent unmarshal evt = (some { UserID := U, Change := -1 }, none) := by
  have hscan : scan msg = (U, TrimSpace t) := by
    rw [scan_eq_last, hU, ht]
    rfl
  refine ⟨hscan, ?_⟩
  rw [handleEvent_decoded unmarshal evt data body msg hevt htyp hdata hdec, hscan]
  exact karmaOf_minus U (TrimSpace t) hne hpre

theorem handleEvent_minus_minus_witness :
    scan (sectionMsg [.user "U123", .text "-- not much"]) = ("U123", "-- not much") ∧
      handleEvent id (messageEvent (.ok (sectionMsg [.user "U123", .text "-- not much"]))) =
        (some { UserID := "U123", Change := -1 }, none) :=
  handleEvent_minus_minus id
    (messageEvent (.ok (sectionMsg [.user "U123", .text "-- not much"])))
    ⟨⟨TYPE_MESSAGE⟩, .callback (some (.ok (sectionMsg [.user "U123", .text "-- not much"])))⟩
    (.ok (sectionMsg [.user "U123", .text "-- not much"]))
    (sectionMsg [.user "U123", .text "-- not much"]) "U123" "-- not much"
    rfl rfl rfl rfl (by decide) (by decide) (by decide) (by decide)

/-- C3, as stated, fails: the message event with mention `U123` and text
`hello` has a mention and a text starting with neither `++` nor `--`, and
`handleEvent` returns the record `{U123, 0}` rather than absent. -/
theorem handleEvent_hello_not_absent :
    helloEvent = messageEvent (.ok (sectionMsg [.user "U123", .text "hello"])) ∧
      lastUser (sectionElements (sectionMsg [.user "U123", .text "hello"])) = some "U123" ∧
      lastText (sectionElements (sectionMsg [.user "U123", .text "hello"])) = some "hello" ∧
      HasPrefix (TrimSpace "hello") "++" = false ∧
      HasPrefix (TrimSpace "hello") "--" = false ∧
      handleEvent id helloEvent ≠ (none, none) ∧
      handleEvent id helloEvent = (some { UserID := "U123", Change := 0 }, none) :=
  ⟨rfl, by decide⟩

/-- C3, amended: on a message event with a callback payload whose body decodes
to `msg`, if the last user element mentions `U` and the trimmed last text
element starts with neither `++` nor `--`, then `handleEvent` returns absent
when `U` or the trimmed text is empty and the record `{U, 0}` otherwise, with a
nil error in both cases; and for every event, any record `handleEvent` returns
has `Change` equal to `+1`, `-1` or `0`. -/
theorem handleEvent_neither {Raw : Type} (unmarshal : Raw → Except String Msg)
    (evt : Event Raw) :
    (∀ (data : EventsAPIEvent Raw) (body : Raw) (msg : Msg) (U t : String),
      evt.Data = .eventsAPI data → data.InnerEvent.typ = TYPE_MESSAGE →
      data.Data = .callback (some body) → unmarshal body = .ok msg →
      lastUser (sectionElements msg) = some U →
      lastText (sectionElements msg) = some t →
      HasPrefix (TrimSpace t) "++" = false → HasPrefix (TrimSpace t) "--" = false →
      handleEvent unmarshal evt =
        if U = "" ∨ TrimSpace t = "" then (none, none)
        else (some { UserID := U, Change := 0 }, none)) ∧
    (∀ k : Karma, (handleEvent unmarshal evt).1 = some k →
      k.Change = 1 ∨ k.Change = -1 ∨ k.Change = 0) := by
  constructor
  · intro data body msg U t hevt htyp hdata hdec hU ht hplus hminus
    have hscan : scan msg = (U, TrimSpace t) := by
      rw [scan_eq_last, hU, ht]
      rfl
    rw [handleEvent_decoded unmarshal evt data body msg hevt htyp hdata hdec, hscan]
    exact karmaOf_neither U (TrimSpace t) hplus hminus
  · intro k hk
    obtain ⟨msg, hmsg⟩ := handleEvent_some unmarshal evt k hk
    rw [hmsg] at hk
    exact karmaOf_change _ _ k hk

theorem handleEvent_neither_witness :
    handleEvent id helloEvent = (some { UserID := "U123", Change := 0 }, none) ∧
      ((0 : Int) = 1 ∨ (0 : Int) = -1 ∨ (0 : Int) = 0) :=
  ⟨(handleEvent_neither id helloEvent).1
      ⟨⟨TYPE_MESSAGE⟩, .callback (some (.ok (sectionMsg [.user "U123", .text "hello"])))⟩
      (.ok (sectionMsg [.user "U123", .text "hello"]))
      (sectionMsg [.user "U123", .text "hello"]) "U123" "hello"
      rfl rfl rfl rfl (by decide) (by decide) (by decide) (by decide),
    (handleEvent_neither id helloEvent).2 { UserID := "U123", Change := 0 } (by decide)⟩

/-- C4, as stated, fails: on the event with mention `U123` and text `hello`,
`Receive` issues the call `IncrBy("U123", 0)`. -/
theorem Receive_hello_incr_zero :
    (Receive id memIncrBy [.event helloEvent, .done] emptyWorld).1.calls =
      [{ key := "U123", delta := 0 }] := by
  decide

/-- C4, amended: for every sequence of selections, every call `Receive` issues
has delta `+1`, `-1` or `0`; and the event with mention `U123` and text
`hello` causes exactly one call, `IncrBy("U123", 0)`. -/
theorem Receive_deltas {Raw σ : Type} (unmarshal : Raw → Except String Msg)
    (IncrBy : σ → String → Int → σ × Option String) (sel : List (Selected Raw)) (w : World σ) :
    (∃ issued : List IncrCall,
      (Receive unmarshal IncrBy sel w).1.calls = w.calls ++ issued ∧
      ∀ c ∈ issued, c.delta = 1 ∨ c.delta = -1 ∨ c.delta = 0) ∧
    (∀ (store : σ → String → Int → σ × Option String) (rest : List (Selected _)),
      (Receive id store (.event helloEvent :: .done :: rest) w).1.calls =
        w.calls ++ [{ key := "U123", delta := 0 }]) := by
  constructor
  · refine ⟨_, Receive_calls unmarshal IncrBy sel w, ?_⟩
    intro c hc
    simp only [recordsOf, List.mem_map, List.mem_filterMap] at hc
    obtain ⟨k, ⟨e, _, hk⟩, rfl⟩ := hc
    obtain ⟨msg, hmsg⟩ := handleEvent_some unmarshal e k hk
    rw [hmsg] at hk
    exact karmaOf_change _ _ k hk
  · intro store rest
    rw [Receive_calls]
    rfl

theorem Receive_deltas_witness :
    (∃ issued : List IncrCall,
      (Receive id memIncrBy [.event helloEvent, .done] emptyWorld).1.calls =
        emptyWorld.calls ++ issued ∧
      ∀ c ∈ issued, c.delta = 1 ∨ c.delta = -1 ∨ c.delta = 0) ∧
    (Receive id memIncrBy [.event helloEvent, .done] emptyWorld).1.calls =
      emptyWorld.calls ++ [{ key := "U123", delta := 0 }] :=
  ⟨(Receive_deltas id memIncrBy [.event helloEvent, .done] emptyWorld).1,
    (Receive_deltas id memIncrBy [.event helloEvent, .done] emptyWorld).2 memIncrBy []⟩

/-- C5: on an event whose data is not an Events-API event, or whose inner
event type is not `message`, `handleEvent` returns a nil record and a nil
error, whatever the payload. -/
theorem handleEvent_not_message {Raw : Type} (unmarshal : Raw → Except String Msg)
    (evt : Event Raw)
    (h : ∀ data, evt.Data = .eventsAPI data → data.InnerEvent.typ ≠ TYPE_MESSAGE) :
    handleEvent unmarshal evt = (none, none) := by
  obtain ⟨d⟩ := evt
  cases d with
  | other => rfl
  | eventsAPI data =>
    have ht := h data rfl
    simp [handleEvent, ht]

theorem handleEvent_not_message_witness :
    handleEvent (id : Except String Msg → Except String Msg) ⟨.other⟩ = (none, none) ∧
      handleEvent (id : Except String Msg → Except String Msg)
        ⟨.eventsAPI ⟨⟨"reaction_added"⟩, .other⟩⟩ = (none, none) :=
  ⟨handleEvent_not_message id ⟨.other⟩ (fun _ h => by cases h),
    handleEvent_not_message id ⟨.eventsAPI ⟨⟨"reaction_added"⟩, .other⟩⟩
      (fun _ h => by cases h; decide)⟩

/-- C6: on a message event with a callback payload whose body decodes to `msg`,
if the section elements hold a text element but no user element, or a user
element but no text element, `handleEvent` returns a nil record and a nil
error. -/
theorem handleEvent_missing_part {Raw : Type} (unmarshal : Raw → Except String Msg)
    (evt : Event Raw) (data : EventsAPIEvent Raw) (body : Raw) (msg : Msg)
    (hevt : evt.Data = .eventsAPI data) (htyp : data.InnerEvent.typ = TYPE_MESSAGE)
    (hdata : data.Data = .callback (some body)) (hdec : unmarshal body = .ok msg)
    (h : ((∃ t, RichTextSectionElement.text t ∈ sectionElements msg) ∧
            ∀ u, RichTextSectionElement.user u ∉ sectionElements msg) ∨
         ((∃ u, RichTextSectionElement.user u ∈ sectionElements msg) ∧
            ∀ t, RichTextSectionElement.text t ∉ sectionElements msg)) :
    handleEvent unmarshal evt = (none, none) := by
  rw [handleEvent_decoded unmarshal evt data body msg hevt htyp hdata hdec, scan_eq_last]
  rcases h with ⟨_, hno⟩ | ⟨_, hno⟩
  · rw [lastUser_none _ hno]
    simp [karmaOf]
  · rw [lastText_none _ hno]
    simp [karmaOf]

theorem handleEvent_missing_part_witness :
    handleEvent id (messageEvent (.ok (sectionMsg [.text "++", .other]))) = (none, none) ∧
      handleEvent id (messageEvent (.ok (sectionMsg [.user "U123", .other]))) = (none, none) :=
  ⟨handleEvent_missing_part id (messageEvent (.ok (sectionMsg [.text "++", .other])))
      ⟨⟨TYPE_MESSAGE⟩, .callback (some (.ok (sectionMsg [.text "++", .other])))⟩
      (.ok (sectionMsg [.text "++", .other])) (sectionMsg [.text "++", .other])
      rfl rfl rfl rfl
      (Or.inl ⟨⟨"++", by decide⟩, fun u hu => by simp [sectionElements, sectionMsg] at hu⟩),
    handleEvent_missing_part id (messageEvent (.ok (sectionMsg [.user "U123", .other])))
      ⟨⟨TYPE_MESSAGE⟩, .callback (some (.ok (sectionMsg [.user "U123", .other])))⟩
      (.ok (sectionMsg [.user "U123", .other])) (sectionMsg [.user "U123", .other])
      rfl rfl rfl rfl
      (Or.inr ⟨⟨"U123", by decide⟩, fun t ht => by simp [sectionElements, sectionMsg] at ht⟩)⟩

/-- C7: on an Events-API event of inner type `message` whose payload is not a
callback event, or is a callback event without an inner event body,
`handleEvent` returns a nil record and the non-nil error for an unexpected
payload type. -/
theorem handleEvent_malformed {Raw : Type} (unmarshal : Raw → Except String Msg)
    (evt : Event Raw) (data : EventsAPIEvent Raw)
    (hevt : evt.Data = .eventsAPI data) (htyp : data.InnerEvent.typ = TYPE_MESSAGE)
    (hdata : data.Data = .other ∨ data.Data = .callback none) :
    handleEvent unmarshal evt = (none, some HandlerError.unexpectedType) := by
  rcases hdata with hdata | hdata <;> simp [handleEvent, hevt, htyp, hdata]

theorem handleEvent_malformed_witness :
    handleEvent id malformedEvent = (none, some HandlerError.unexpectedType) ∧
      handleEvent (id : Except String Msg → Except String Msg)
        ⟨.eventsAPI ⟨⟨TYPE_MESSAGE⟩, .callback none⟩⟩ =
        (none, some HandlerError.unexpectedType) :=
  ⟨handleEvent_malformed id malformedEvent ⟨⟨TYPE_MESSAGE⟩, .other⟩ rfl rfl (Or.inl rfl),
    handleEvent_malformed id ⟨.eventsAPI ⟨⟨TYPE_MESSAGE⟩, .callback none⟩⟩
      ⟨⟨TYPE_MESSAGE⟩, .callback none⟩ rfl rfl (Or.inr rfl)⟩

/-- C8: for every list of events taken before the `ctx.Done()` case, and
whatever the counter store answers to each call, `Receive` issues exactly the
calls `IncrBy(UserID, Change)` for the records `handleEvent` returns on these
events, one per record and in the order of the events; their number is the
number of events with a record. -/
theorem Receive_issues_records {Raw σ : Type} (unmarshal : Raw → Except String Msg)
    (IncrBy : σ → String → Int → σ × Option String) (evs : List (Event Raw))
    (rest : List (Selected Raw)) (w : World σ) :
    (Receive unmarshal IncrBy (evs.map Selected.event ++ Selected.done :: rest) w).1.calls =
        w.calls ++ (recordsOf unmarshal evs).map callOf ∧
      ((recordsOf unmarshal evs).map callOf).length =
        evs.countP fun e => (handleEvent unmarshal e).1.isSome := by
  constructor
  · rw [Receive_calls, eventsBeforeDone_map]
  · rw [List.length_map, length_recordsOf]

theorem Receive_issues_records_witness :
    (Receive id (fun (n : Nat) _ _ => (n + 1, if n = 0 then some "down" else none))
        ([helloEvent, malformedEvent, messageEvent (.ok (thanksMsg "++")),
            messageEvent (.ok (sectionMsg [.user "U7", .text "--"]))].map Selected.event ++
          Selected.done :: [.event helloEvent])
        { store := 0, calls := [], logs := [] }).1.calls =
      [{ key := "U123", delta := 0 }, { key := "U123", delta := 1 },
        { key := "U7", delta := -1 }] :=
  (Receive_issues_records id (fun (n : Nat) _ _ => (n + 1, if n = 0 then some "down" else none))
    [helloEvent, malformedEvent, messageEvent (.ok (thanksMsg "++")),
      messageEvent (.ok (sectionMsg [.user "U7", .text "--"]))]
    [.event helloEvent] { store := 0, calls := [], logs := [] }).1

/-- C9: when `handleEvent` returns an error on an event, `Receive` only logs
it, leaves the store and the calls as they are and goes on with the next
selection; so a message event with a malformed callback payload followed by a
message event whose retained mention is a non-empty `U` and whose trimmed text
starts with `++` yields exactly the call `IncrBy(U, 1)`. -/
theorem Receive_error_continues {Raw σ : Type} (unmarshal : Raw → Except String Msg)
    (IncrBy : σ → String → Int → σ × Option String) (w : World σ) :
    (∀ (e : Event Raw) (err : HandlerError) (rest : List (Selected Raw)),
      (handleEvent unmarshal e).2 = some err →
      Receive unmarshal IncrBy (.event e :: rest) w =
        Receive unmarshal IncrBy rest { w with logs := w.logs ++ [.handleFailed err] }) ∧
    (∀ (payload : CallbackData Raw) (body : Raw) (msg : Msg) (U t : String)
      (rest : List (Selected Raw)),
      (payload = .other ∨ payload = .callback none) →
      unmarshal body = .ok msg →
      lastUser (sectionElements msg) = some U → U ≠ "" →
      lastText (sectionElements msg) = some t → HasPrefix (TrimSpace t) "++" = true →
      (Receive unmarshal IncrBy
        (.event ⟨.eventsAPI ⟨⟨TYPE_MESSAGE⟩, payload⟩⟩ ::
          .event ⟨.eventsAPI ⟨⟨TYPE_MESSAGE⟩, .callback (some body)⟩⟩ :: .done :: rest)
        w).1.calls = w.calls ++ [{ key := U, delta := 1 }]) := by
  constructor
  · intro e err rest h
    exact Receive_event_err unmarshal IncrBy e err rest w h
  · intro payload body msg U t rest hpayload hdec hU hne ht hpre
    have hbad : handleEvent unmarshal ⟨.eventsAPI ⟨⟨TYPE_MESSAGE⟩, payload⟩⟩ =
        (none, some HandlerError.unexpectedType) := by
      rcases hpayload with h | h <;> simp [handleEvent, h]
    have hgood : handleEvent unmarshal ⟨.eventsAPI ⟨⟨TYPE_MESSAGE⟩, .callback (some body)⟩⟩ =
        (some { UserID := U, Change := 1 }, none) := by
      rw [handleEvent_decoded unmarshal _ ⟨⟨TYPE_MESSAGE⟩, .callback (some body)⟩ body msg
        rfl rfl rfl hdec, scan_eq_last, hU, ht]
      exact karmaOf_plus U (TrimSpace t) hne hpre
    rw [Receive_calls]
    simp [eventsBeforeDone, recordsOf, hbad, hgood, callOf]

theorem Receive_error_continues_witness :
    Receive id memIncrBy [.event malformedEvent, .done] emptyWorld =
        Receive id memIncrBy [.done]
          { emptyWorld with logs := emptyWorld.logs ++ [.handleFailed .unexpectedType] } ∧
      (Receive id memIncrBy
        [.event malformedEvent, .event (messageEvent (.ok (thanksMsg " ++ great"))), .done]
        emptyWorld).1.calls = emptyWorld.calls ++ [{ key := "U123", delta := 1 }] :=
  ⟨(Receive_error_continues id memIncrBy emptyWorld).1 malformedEvent .unexpectedType [.done]
      (by decide),
    (Receive_error_continues id memIncrBy emptyWorld).2 .other (.ok (thanksMsg " ++ great"))
      (thanksMsg " ++ great") "U123" " ++ great" [] (Or.inl rfl) rfl (by decide) (by decide)
      (by decide) (by decide)⟩

/-- C10: whatever the selections, the decoder and the counter store do,
`Receive` returns exactly when a `ctx.Done()` case is taken, the value it
returns is nil, and otherwise it is still waiting in its `select`. -/
theorem Receive_returns_nil {Raw σ : Type} (unmarshal : Raw → Except String Msg)
    (IncrBy : σ → String → Int → σ × Option String) (sel : List (Selected Raw)) (w : World σ) :
    ((Receive unmarshal IncrBy sel w).2 = Outcome.returned none ∧ Selected.done ∈ sel) ∨
      ((Receive unmarshal IncrBy sel w).2 = Outcome.waiting ∧ Selected.done ∉ sel) := by
  induction sel generalizing w with
  | nil => simp [Receive]
  | cons s rest ih =>
    cases s with
    | done => simp [Receive]
    | event e =>
      have hmem : (Selected.done ∈ Selected.event e :: rest) ↔ Selected.done ∈ rest := by
        simp
      cases hr : handleEvent unmarshal e with
      | mk k r =>
        cases r with
        | some err =>
          have h2 : (handleEvent unmarshal e).2 = some err := by rw [hr]
          rw [Receive_event_err unmarshal IncrBy e err rest w h2, hmem]
          exact ih _
        | none =>
          cases k with
          | none =>
            rw [Receive_event_absent unmarshal IncrBy e rest w hr, hmem]
            exact ih _
          | some k =>
            obtain ⟨w1, _, hrec⟩ := Receive_event_record unmarshal IncrBy e k rest w hr
            rw [hrec, hmem]
            exact ih _


theorem Receive_returns_nil_witness :
    (Receive id memIncrBy [.event helloEvent, .event malformedEvent, .done, .event helloEvent]
        emptyWorld).2 = Outcome.returned none ∧
      (Receive id memIncrBy [.event helloEvent, .event malformedEvent] emptyWorld).2 =
        Outcome.waiting :=
  ⟨((Receive_returns_nil id memIncrBy
        [.event helloEvent, .event malformedEvent, .done, .event helloEvent] emptyWorld).resolve_right
      (fun h => h.2 (by simp))).1,
    ((Receive_returns_nil id memIncrBy [.event helloEvent, .event malformedEvent]
        emptyWorld).resolve_left (fun h => by simp at h)).1⟩

/-! ## Lemmas for the bootstrap and the remaining results -/

/-- A record of `karmaOf` needs both parts non-empty and is decided by the
text. -/
theorem karmaOf_some (U text : String) (k : Karma) (h : (karmaOf U text).1 = some k) :
    U ≠ "" ∧ text ≠ "" ∧
      k = { UserID := U
            Change := if HasPrefix text "++" then 1 else if HasPrefix text "--" then -1 else 0 } := by
  unfold karmaOf at h
  split at h
  · simp at h
  · rename_i hne
    simp only [Option.some.injEq] at h
    rw [not_or] at hne
    exact ⟨hne.1, hne.2, h.symm⟩

/-- Commands other than `FlushDB` delete no entry. -/
theorem applyCmds_isSome (cmds : List RedisCmd) (entries : String → Option Int) (key : String)
    (hcmds : ∀ c ∈ cmds, c = RedisCmd.Ping ∨ ∃ k d, c = RedisCmd.IncrBy k d)
    (h : (entries key).isSome = true) : (applyCmds entries cmds key).isSome = true := by
  induction cmds generalizing entries with
  | nil => exact h
  | cons c rest ih =>
    unfold applyCmds
    rw [List.foldl_cons]
    apply ih
    · intro c1 hc1
      exact hcmds c1 (List.mem_cons_of_mem _ hc1)
    · rcases hcmds c (List.mem_cons_self _ _) with hc | ⟨k, d, hc⟩
      · rw [hc]
        exact h
      · rw [hc]
        simp only [applyCmd]
        split
        · split
          · rfl
          · exact h
        · exact h

/-- With both prefixes `connect` builds the client. -/
theorem connect_of_prefixes (appToken botToken : String)
    (happ : HasPrefix appToken "xapp-" = true) (hbot : HasPrefix botToken "xoxb-" = true) :
    connect appToken botToken = (some { botToken := botToken, appToken := appToken }, none) := by
  have ha1 : appToken ≠ "" := HasPrefix_ne_empty appToken "xapp-" (by decide) happ
  have hb1 : botToken ≠ "" := HasPrefix_ne_empty botToken "xoxb-" (by decide) hbot
  simp [connect, happ, hbot, ha1, hb1]

/-- Without one of the prefixes `connect` returns an error. -/
theorem connect_of_missing (appToken botToken : String)
    (h : HasPrefix appToken "xapp-" = false ∨ HasPrefix botToken "xoxb-" = false) :
    ∃ e, connect appToken botToken = (none, some e) := by
  unfold connect
  split
  · exact ⟨_, rfl⟩
  · split
    · exact ⟨_, rfl⟩
    · split
      · exact ⟨_, rfl⟩
      · split
        · exact ⟨_, rfl⟩
        · rename_i _ ha _ hb
          rcases h with h | h
          · simp [h] at ha
          · simp [h] at hb

theorem New_cmds (authTestErr pingErr : Option String) :
    ∀ c ∈ (New authTestErr pingErr).1, c = RedisCmd.Ping := by
  intro c hc
  cases authTestErr <;> cases pingErr <;> simp [New] at hc <;> exact hc

/-! ## The bootstrap and the remaining results on the extractor -/

/-- C11, as stated, fails: with valid tokens `main` sends `FlushDB` before any
increment, and an entry that exists before the run is deleted by it. -/
theorem main_flushes_store :
    main id memIncrBy "xapp-1" "xoxb-2" none none [.done] (fun _ => 0) = [.FlushDB, .Ping] ∧
      (fun k => if k = "U123" then some (5 : Int) else none) "U123" = some 5 ∧
      applyCmds (fun k => if k = "U123" then some 5 else none)
        (main id memIncrBy "xapp-1" "xoxb-2" none none [.done] (fun _ => 0)) "U123" = none := by
  decide

/-- C11, amended: when a token lacks its prefix `main` sends nothing to the
counter store; when both tokens carry their prefix it sends `FlushDB` first,
which deletes every entry, and exactly once: the commands after it are only the
`Ping` of `New` and the increments of a single key that `Receive` issues, and
they delete no entry. -/
theorem main_cmds {Raw σ : Type} (unmarshal : Raw → Except String Msg)
    (IncrBy : σ → String → Int → σ × Option String) (appToken botToken : String)
    (authTestErr pingErr : Option String) (sel : List (Selected Raw)) (store : σ) :
    ((HasPrefix appToken "xapp-" = false ∨ HasPrefix botToken "xoxb-" = false) →
        main unmarshal IncrBy appToken botToken authTestErr pingErr sel store = []) ∧
      (HasPrefix appToken "xapp-" = true → HasPrefix botToken "xoxb-" = true →
        ∃ tail,
          main unmarshal IncrBy appToken botToken authTestErr pingErr sel store =
            RedisCmd.FlushDB :: tail ∧
          tail = (New authTestErr pingErr).1 ++
            (if (New authTestErr pingErr).2 = none then
              (Receive unmarshal IncrBy sel { store := store, calls := [], logs := [] }).1.calls.map
                fun c => RedisCmd.IncrBy c.key c.delta
            else []) ∧
          (∀ (entries : String → Option Int) (key : String),
            applyCmd entries RedisCmd.FlushDB key = none) ∧
          RedisCmd.FlushDB ∉ tail ∧
          (∀ c ∈ tail, c = RedisCmd.Ping ∨ ∃ key delta, c = RedisCmd.IncrBy key delta) ∧
          ∀ (entries : String → Option Int) (key : String),
            (entries key).isSome = true → (applyCmds entries tail key).isSome = true) := by
  constructor
  · intro hmiss
    obtain ⟨e, he⟩ := connect_of_missing appToken botToken hmiss
    unfold main
    rw [he]
  · intro happ hbot
    have hmain : main unmarshal IncrBy appToken botToken authTestErr pingErr sel store =
        RedisCmd.FlushDB :: ((New authTestErr pingErr).1 ++
          (if (New authTestErr pingErr).2 = none then
            (Receive unmarshal IncrBy sel { store := store, calls := [], logs := [] }).1.calls.map
              fun c => RedisCmd.IncrBy c.key c.delta
          else [])) := by
      unfold main
      rw [connect_of_prefixes appToken botToken happ hbot]
      cases hn : New authTestErr pingErr with
      | mk cmds nerr => cases nerr <;> simp
    have hall : ∀ c ∈ (New authTestErr pingErr).1 ++
        (if (New authTestErr pingErr).2 = none then
          (Receive unmarshal IncrBy sel { store := store, calls := [], logs := [] }).1.calls.map
            fun c => RedisCmd.IncrBy c.key c.delta
        else []), c = RedisCmd.Ping ∨ ∃ key delta, c = RedisCmd.IncrBy key delta := by
      intro c hcm
      rw [List.mem_append] at hcm
      rcases hcm with hcm | hcm
      · exact Or.inl (New_cmds authTestErr pingErr c hcm)
      · split at hcm
        · rw [List.mem_map] at hcm
          obtain ⟨call, _, rfl⟩ := hcm
          exact Or.inr ⟨_, _, rfl⟩
        · simp at hcm
    refine ⟨_, hmain, rfl, fun _ _ => rfl, ?_, hall, ?_⟩
    · intro hmem
      rcases hall _ hmem with h | ⟨k, d, h⟩ <;> cases h
    · intro entries key
      exact applyCmds_isSome _ entries key hall

theorem main_cmds_witness :
    main id memIncrBy "xapp-1" "xoxp-2" none none
        [.event (messageEvent (.ok emojiMsg)), .done] (fun _ => 0) = [] ∧
      ∃ tail,
        main id memIncrBy "xapp-1" "xoxb-2" none none
            [.event (messageEvent (.ok emojiMsg)), .done] (fun _ => 0) =
          RedisCmd.FlushDB :: tail ∧
        tail = (New none none).1 ++
          (if (New none none).2 = none then
            (Receive id memIncrBy [.event (messageEvent (.ok emojiMsg)), .done]
              { store := fun _ => 0, calls := [], logs := [] }).1.calls.map
              fun c => RedisCmd.IncrBy c.key c.delta
          else []) ∧
        (∀ (entries : String → Option Int) (key : String),
          applyCmd entries RedisCmd.FlushDB key = none) ∧
        RedisCmd.FlushDB ∉ tail ∧
        (∀ c ∈ tail, c = RedisCmd.Ping ∨ ∃ key delta, c = RedisCmd.IncrBy key delta) ∧
        ∀ (entries : String → Option Int) (key : String),
          (entries key).isSome = true → (applyCmds entries tail key).isSome = true :=
  ⟨(main_cmds id memIncrBy "xapp-1" "xoxp-2" none none
        [.event (messageEvent (.ok emojiMsg)), .done] (fun _ => 0)).1 (Or.inr (by decide)),
    (main_cmds id memIncrBy "xapp-1" "xoxb-2" none none
        [.event (messageEvent (.ok emojiMsg)), .done] (fun _ => 0)).2 (by decide) (by decide)⟩

/-- C12: `connect` returns no client and an error exactly when the app token
does not start with `xapp-` or the bot token does not start with `xoxb-` (an
empty token lacks the prefix); when both prefixes are there it returns the
client and a nil error. -/
theorem connect_error_iff (appToken botToken : String) :
    (((connect appToken botToken).1 = none ∧ (connect appToken botToken).2 ≠ none) ↔
        (HasPrefix appToken "xapp-" = false ∨ HasPrefix botToken "xoxb-" = false)) ∧
      (HasPrefix appToken "xapp-" = true → HasPrefix botToken "xoxb-" = true →
        connect appToken botToken =
          (some { botToken := botToken, appToken := appToken }, none)) := by
  have happ : appToken = "" → HasPrefix appToken "xapp-" = false := by
    intro h
    subst h
    decide
  have hbot : botToken = "" → HasPrefix botToken "xoxb-" = false := by
    intro h
    subst h
    decide
  have he1 : HasPrefix "" "xapp-" = false := by decide
  have he2 : HasPrefix "" "xoxb-" = false := by decide
  by_cases ha : HasPrefix appToken "xapp-" = true
  · have ha1 : appToken ≠ "" := fun h => by simp [happ h] at ha
    by_cases hb : HasPrefix botToken "xoxb-" = true
    · have hb1 : botToken ≠ "" := fun h => by simp [hbot h] at hb
      simp [connect, ha, hb, ha1, hb1]
    · by_cases hb1 : botToken = "" <;> simp [connect, ha, hb, ha1, hb1, he2]
  · by_cases ha1 : appToken = "" <;> simp [connect, ha, ha1, he1]

theorem connect_error_iff_witness :
    connect "xapp-1-A" "xoxb-2-B" =
        (some { botToken := "xoxb-2-B", appToken := "xapp-1-A" }, none) ∧
      ((connect "" "xoxb-2-B").1 = none ∧ (connect "" "xoxb-2-B").2 ≠ none) ∧
      ((connect "xapp-1-A" "xoxp-2").1 = none ∧ (connect "xapp-1-A" "xoxp-2").2 ≠ none) :=
  ⟨(connect_error_iff "xapp-1-A" "xoxb-2-B").2 (by decide) (by decide),
    (connect_error_iff "" "xoxb-2-B").1.2 (Or.inl (by decide)),
    (connect_error_iff "xapp-1-A" "xoxp-2").1.2 (Or.inr (by decide))⟩

/-- C13, as stated, fails: on the message with mention `U123`, an emoji and the
text `++` in one section, `handleEvent` returns the record `{U123, +1}` although
no text element stands next to a mention of `U123` in any section. -/
theorem handleEvent_emoji_not_adjacent :
    handleEvent id (messageEvent (.ok emojiMsg)) =
        (some { UserID := "U123", Change := 1 }, none) ∧
      sections emojiMsg = [[.user "U123", .other, .text "++"]] ∧
      (sections emojiMsg).flatMap (adjacentTexts "U123") = [] := by
  decide

/-- C13, amended: on a message event with a callback payload whose body decodes
to `msg`, when `handleEvent` returns a record, its user is the user of the last
user element of the section elements of the whole message and its `Change` is
decided by the trimmed text of their last text element, which is not empty;
the two elements need not be neighbours nor stand in the same section. -/
theorem handleEvent_record_from_last {Raw : Type} (unmarshal : Raw → Except String Msg)
    (evt : Event Raw) (data : EventsAPIEvent Raw) (body : Raw) (msg : Msg) (k : Karma)
    (hevt : evt.Data = .eventsAPI data) (htyp : data.InnerEvent.typ = TYPE_MESSAGE)
    (hdata : data.Data = .callback (some body)) (hdec : unmarshal body = .ok msg)
    (hk : (handleEvent unmarshal evt).1 = some k) :
    lastUser (sectionElements msg) = some k.UserID ∧
      ∃ t, lastText (sectionElements msg) = some t ∧ TrimSpace t ≠ "" ∧
        k.Change =
          if HasPrefix (TrimSpace t) "++" then 1
          else if HasPrefix (TrimSpace t) "--" then -1 else 0 := by
  rw [handleEvent_decoded unmarshal evt data body msg hevt htyp hdata hdec, scan_eq_last] at hk
  obtain ⟨hU, ht, hkeq⟩ := karmaOf_some _ _ k hk
  cases hlu : lastUser (sectionElements msg) with
  | none => simp [hlu] at hU
  | some U =>
    cases hlt : lastText (sectionElements msg) with
    | none => simp [hlt] at ht
    | some t =>
      simp only [hlu, hlt, Option.getD_some, Option.map_some'] at hkeq ht
      subst hkeq
      exact ⟨rfl, t, rfl, ht, rfl⟩

theorem handleEvent_record_from_last_witness :
    lastUser (sectionElements (thanksMsg " ++ great")) = some "U123" ∧
      ∃ t, lastText (sectionElements (thanksMsg " ++ great")) = some t ∧ TrimSpace t ≠ "" ∧
        (1 : Int) =
          if HasPrefix (TrimSpace t) "++" then 1
          else if HasPrefix (TrimSpace t) "--" then -1 else 0 :=
  handleEvent_record_from_last id (messageEvent (.ok (thanksMsg " ++ great")))
    ⟨⟨TYPE_MESSAGE⟩, .callback (some (.ok (thanksMsg " ++ great")))⟩
    (.ok (thanksMsg " ++ great")) (thanksMsg " ++ great") { UserID := "U123", Change := 1 }
    rfl rfl rfl rfl (by decide)

/-- C14: for every event, any record `handleEvent` returns has `Change` equal
to `-1`, `0` or `+1`. -/
theorem handleEvent_change_range {Raw : Type} (unmarshal : Raw → Except String Msg)
    (evt : Event Raw) (k : Karma) (hk : (handleEvent unmarshal evt).1 = some k) :
    k.Change = -1 ∨ k.Change = 0 ∨ k.Change = 1 := by
  obtain ⟨msg, hmsg⟩ := handleEvent_some unmarshal evt k hk
  rw [hmsg] at hk
  rcases karmaOf_change _ _ k hk with h | h | h
  · exact Or.inr (Or.inr h)
  · exact Or.inl h
  · exact Or.inr (Or.inl h)

theorem handleEvent_change_range_witness :
    (handleEvent id (messageEvent (.ok (sectionMsg [.user "U123", .text "-- not much"])))).1 =
        some { UserID := "U123", Change := -1 } ∧
      ((-1 : Int) = -1 ∨ (-1 : Int) = 0 ∨ (-1 : Int) = 1) :=
  ⟨by decide,
    handleEvent_change_range id
      (messageEvent (.ok (sectionMsg [.user "U123", .text "-- not much"])))
      { UserID := "U123", Change := -1 } (by decide)⟩

/-- C15: the nested loops of `handleEvent` are one left fold over the section
elements of the message, taken in order from every section of every rich-text
block; the pair they retain is the user of the last user element and the
trimmed text of the last text element, with the empty string when there is
none; a block that is not rich text and a rich-text element that is not a
section change nothing. -/
theorem scan_eq_fold (msg : Msg) :
    scan msg = (sectionElements msg).foldl scanSectionEl ("", "") ∧
      scan msg =
        ((lastUser (sectionElements msg)).getD "",
         ((lastText (sectionElements msg)).map TrimSpace).getD "") ∧
      (∀ (before after : List Block) (blockType : String),
        scan ⟨⟨before ++ Block.other blockType :: after⟩⟩ = scan ⟨⟨before ++ after⟩⟩) ∧
      (∀ (before after : List Block) (els1 els2 : List RichTextElement) (elementType : String),
        scan ⟨⟨before ++ Block.richText (els1 ++ RichTextElement.other elementType :: els2) ::
            after⟩⟩ =
          scan ⟨⟨before ++ Block.richText (els1 ++ els2) :: after⟩⟩) := by
  refine ⟨?_, scan_eq_last msg, ?_, ?_⟩
  · unfold scan
    rw [foldl_scanBlock]
  · intro before after blockType
    rw [scan_eq_last, scan_eq_last]
    simp [sectionElements]
  · intro before after els1 els2 elementType
    rw [scan_eq_last, scan_eq_last]
    simp [sectionElements]

theorem scan_eq_fold_witness :
    scan (thanksMsg "--") = ("U123", "--") ∧
      (sectionElements (thanksMsg "--")).foldl scanSectionEl ("", "") = ("U123", "--") ∧
      scan ⟨⟨[.richText [.richTextSection [.text "hi ", .user "U999", .text " thanks "],
          .richTextSection [.user "U123", .other, .text "--"]]]⟩⟩ = ("U123", "--") :=
  ⟨by decide, (scan_eq_fold (thanksMsg "--")).1 ▸ (by decide), by decide⟩

/-- C16: `handleEvent` returns a non-nil error exactly when the event is an
Events-API event of inner type `message` whose payload is not a callback
event, or is a callback event without an inner event body, or has a body that
fails to decode; the record is then nil, and in every other case the error is
nil. -/
theorem handleEvent_error_iff {Raw : Type} (unmarshal : Raw → Except String Msg)
    (evt : Event Raw) :
    ((handleEvent unmarshal evt).2 ≠ none ↔
        ∃ data, evt.Data = .eventsAPI data ∧ data.InnerEvent.typ = TYPE_MESSAGE ∧
          (data.Data = .other ∨ data.Data = .callback none ∨
            ∃ body cause, data.Data = .callback (some body) ∧ unmarshal body = .error cause)) ∧
      ((handleEvent unmarshal evt).2 ≠ none → (handleEvent unmarshal evt).1 = none) := by
  constructor
  · obtain ⟨d⟩ := evt
    cases d with
    | other => simp [handleEvent]
    | eventsAPI data =>
      obtain ⟨⟨t⟩, payload⟩ := data
      by_cases ht : t = TYPE_MESSAGE
      · cases payload with
        | other => simp [handleEvent, ht]
        | callback InnerEvent =>
          cases InnerEvent with
          | none => simp [handleEvent, ht]
          | some body =>
            cases hdec : unmarshal body with
            | error cause => simp [handleEvent, ht, hdec]
            | ok msg =>
              have hnil : (karmaOf (scan msg).1 (scan msg).2).2 = none := by
                unfold karmaOf
                split <;> rfl
              simp [handleEvent, ht, hdec, hnil]
      · simp [handleEvent, ht]
  · intro h
    cases herr : (handleEvent unmarshal evt).2 with
    | none => exact absurd herr h
    | some err => exact handleEvent_err unmarshal evt err herr

theorem handleEvent_error_iff_witness :
    (handleEvent id malformedEvent).1 = none ∧
      (handleEvent id (messageEvent (.error "unexpected end of JSON input"))).2 =
        some (.decodeFailed "unexpected end of JSON input") ∧
      (handleEvent id helloEvent).2 = none :=
  ⟨(handleEvent_error_iff id malformedEvent).2 (by decide), by decide, by decide⟩

/-! ## Lemmas on the `select` and on trimming -/

/-- One turn of the loop on an event leads to a world that does not depend on
the selections that follow. -/
theorem Receive_event_step {Raw σ : Type} (unmarshal : Raw → Except String Msg)
    (IncrBy : σ → String → Int → σ × Option String) (e : Event Raw) (w : World σ) :
    ∃ w1 : World σ, ∀ rest : List (Selected Raw),
      Receive unmarshal IncrBy (.event e :: rest) w = Receive unmarshal IncrBy rest w1 := by
  cases hr : handleEvent unmarshal e with
  | mk k r =>
    cases r with
    | some err =>
      have h2 : (handleEvent unmarshal e).2 = some err := by rw [hr]
      exact ⟨_, fun rest => Receive_event_err unmarshal IncrBy e err rest w h2⟩
    | none =>
      cases k with
      | none => exact ⟨w, fun rest => Receive_event_absent unmarshal IncrBy e rest w hr⟩
      | some k =>
        cases hi : IncrBy w.store k.UserID k.Change with
        | mk store r =>
          cases r with
          | none =>
            refine ⟨{ store := store, calls := w.calls ++ [⟨k.UserID, k.Change⟩],
                      logs := w.logs ++ [.karma k.UserID k.Change] }, fun rest => ?_⟩
            rw [Receive, hr]
            simp only [hi]
          | some cause =>
            refine ⟨{ store := store, calls := w.calls ++ [⟨k.UserID, k.Change⟩],
                      logs := w.logs ++ [.karma k.UserID k.Change,
                        .adjustFailed k.UserID cause] }, fun rest => ?_⟩
            rw [Receive, hr]
            simp only [hi]

/-- What follows a `ctx.Done()` case has no effect. -/
theorem Receive_done_rest {Raw σ : Type} (unmarshal : Raw → Except String Msg)
    (IncrBy : σ → String → Int → σ × Option String) (sel rest : List (Selected Raw))
    (w : World σ) :
    Receive unmarshal IncrBy (sel ++ Selected.done :: rest) w =
      Receive unmarshal IncrBy (sel ++ [Selected.done]) w := by
  induction sel generalizing w with
  | nil => simp [Receive]
  | cons s sel ih =>
    cases s with
    | done => simp [Receive]
    | event e =>
      obtain ⟨w1, hw1⟩ := Receive_event_step unmarshal IncrBy e w
      rw [List.cons_append, List.cons_append, hw1, hw1]
      exact ih w1

theorem dropWhile_of_all {α : Type} (p : α → Bool) (l : List α) (h : l.all p = true) :
    l.dropWhile p = [] := by
  induction l with
  | nil => rfl
  | cons a l ih =>
    rw [List.all_cons, Bool.and_eq_true] at h
    rw [List.dropWhile_cons_of_pos h.1]
    exact ih h.2

/-- A string of white space only trims to the empty string. -/
theorem TrimSpace_of_all_space (t : String) (h : t.data.all isSpace = true) :
    TrimSpace t = "" := by
  unfold TrimSpace
  rw [dropWhile_of_all isSpace t.data h]
  rfl

/-! ## Cancellation, white space and the key of the increments -/

/-- C17, as stated, fails: at a wait that begins after cancellation with an
event pending, the `select` may take the event; `Receive` then handles it and
issues `IncrBy("U123", 1)` before the next wait takes `ctx.Done()`. -/
theorem ReceiveWaits_event_after_cancel :
    (Wait.mk (some (messageEvent (.ok emojiMsg))) true true).selected =
        some (.event (messageEvent (.ok emojiMsg))) ∧
      (ReceiveWaits id memIncrBy
        [Wait.mk (some (messageEvent (.ok emojiMsg))) true true, Wait.mk none true false]
        emptyWorld).1.calls = [{ key := "U123", delta := 1 }] ∧
      (ReceiveWaits id memIncrBy
        [Wait.mk (some (messageEvent (.ok emojiMsg))) true true, Wait.mk none true false]
        emptyWorld).2 = Outcome.returned none :=
  ⟨rfl, by decide, by decide⟩

/-- C17, amended: once a `select` of `Receive` takes the `ctx.Done()` case,
what later waits would find has no effect: no further event is taken and no
further `IncrBy` is issued.  At a wait that begins after cancellation the
`ctx.Done()` case is taken when no event is pending; when an event is pending
too, the `select` takes the case the runtime picks, which may be the event. -/
theorem ReceiveWaits_after_done {Raw σ : Type} (unmarshal : Raw → Except String Msg)
    (IncrBy : σ → String → Int → σ × Option String) (before after : List (Wait Raw))
    (wt : Wait Raw) (w : World σ) :
    (wt.selected = some Selected.done →
        ReceiveWaits unmarshal IncrBy (before ++ wt :: after) w =
          ReceiveWaits unmarshal IncrBy (before ++ [wt]) w) ∧
      (wt.cancelled = true → wt.pending = none → wt.selected = some Selected.done) ∧
      (∀ e, wt.cancelled = true → wt.pending = some e →
        wt.selected = some (if wt.pickEvent then Selected.event e else Selected.done)) := by
  refine ⟨?_, ?_, ?_⟩
  · intro hsel
    unfold ReceiveWaits
    simp only [List.filterMap_append, List.filterMap_cons, hsel, List.filterMap_nil]
    exact Receive_done_rest unmarshal IncrBy _ _ w
  · intro hc hp
    simp [Wait.selected, hc, hp]
  · intro e hc hp
    simp [Wait.selected, hc, hp]

theorem ReceiveWaits_after_done_witness :
    ReceiveWaits id memIncrBy
        ([Wait.mk (some helloEvent) false false] ++ Wait.mk none true false ::
          [Wait.mk (some (messageEvent (.ok emojiMsg))) true true]) emptyWorld =
      ReceiveWaits id memIncrBy
        ([Wait.mk (some helloEvent) false false] ++ [Wait.mk none true false]) emptyWorld ∧
    (Wait.mk none true false : Wait (Except String Msg)).selected = some Selected.done ∧
    (Wait.mk (some helloEvent) true false).selected =
      some (if (Wait.mk (some helloEvent) true false).pickEvent then Selected.event helloEvent
        else Selected.done) :=
  ⟨(ReceiveWaits_after_done id memIncrBy [Wait.mk (some helloEvent) false false]
        [Wait.mk (some (messageEvent (.ok emojiMsg))) true true] (Wait.mk none true false)
        emptyWorld).1 rfl,
    (ReceiveWaits_after_done id memIncrBy [] [] (Wait.mk none true false) emptyWorld).2.1 rfl rfl,
    (ReceiveWaits_after_done id memIncrBy [] [] (Wait.mk (some helloEvent) true false)
        emptyWorld).2.2 helloEvent rfl rfl⟩

/-- C18: on a message event with a callback payload whose body decodes to
`msg`, if the last text element of the section elements holds white space only,
`handleEvent` returns a nil record and a nil error, whatever comes before it. -/
theorem handleEvent_whitespace_last {Raw : Type} (unmarshal : Raw → Except String Msg)
    (evt : Event Raw) (data : EventsAPIEvent Raw) (body : Raw) (msg : Msg) (t : String)
    (hevt : evt.Data = .eventsAPI data) (htyp : data.InnerEvent.typ = TYPE_MESSAGE)
    (hdata : data.Data = .callback (some body)) (hdec : unmarshal body = .ok msg)
    (ht : lastText (sectionElements msg) = some t) (hws : t.data.all isSpace = true) :
    handleEvent unmarshal evt = (none, none) := by
  rw [handleEvent_decoded unmarshal evt data body msg hevt htyp hdata hdec, scan_eq_last, ht]
  simp [karmaOf, TrimSpace_of_all_space t hws]

theorem handleEvent_whitespace_last_witness :
    handleEvent id (messageEvent (.ok (sectionMsg [.user "U123", .text "++", .text " \t "]))) =
      (none, none) :=
  handleEvent_whitespace_last id
    (messageEvent (.ok (sectionMsg [.user "U123", .text "++", .text " \t "])))
    ⟨⟨TYPE_MESSAGE⟩, .callback (some (.ok (sectionMsg [.user "U123", .text "++", .text " \t "])))⟩
    (.ok (sectionMsg [.user "U123", .text "++", .text " \t "]))
    (sectionMsg [.user "U123", .text "++", .text " \t "]) " \t "
    rfl rfl rfl rfl (by decide) (by decide)

/-- C19: for every event, any record `handleEvent` returns has a non-empty
`UserID`; so every `IncrBy` call `Receive` issues has a non-empty key. -/
theorem handleEvent_userID_nonempty {Raw σ : Type} (unmarshal : Raw → Except String Msg)
    (IncrBy : σ → String → Int → σ × Option String) :
    (∀ (evt : Event Raw) (k : Karma), (handleEvent unmarshal evt).1 = some k → k.UserID ≠ "") ∧
      (∀ (sel : List (Selected Raw)) (w : World σ),
        ∃ issued : List IncrCall,
          (Receive unmarshal IncrBy sel w).1.calls = w.calls ++ issued ∧
          ∀ c ∈ issued, c.key ≠ "") := by
  have hrec : ∀ (evt : Event Raw) (k : Karma),
      (handleEvent unmarshal evt).1 = some k → k.UserID ≠ "" := by
    intro evt k hk
    obtain ⟨msg, hmsg⟩ := handleEvent_some unmarshal evt k hk
    rw [hmsg] at hk
    obtain ⟨hU, _, hkeq⟩ := karmaOf_some _ _ k hk
    rw [hkeq]
    exact hU
  refine ⟨hrec, ?_⟩
  intro sel w
  refine ⟨_, Receive_calls unmarshal IncrBy sel w, ?_⟩
  intro c hc
  simp only [recordsOf, List.mem_map, List.mem_filterMap] at hc
  obtain ⟨k, ⟨e, _, hk⟩, rfl⟩ := hc
  exact hrec e k hk

theorem handleEvent_userID_nonempty_witness :
    ("U123" : String) ≠ "" ∧
      handleEvent id (messageEvent (.ok (sectionMsg [.user "", .text "++"]))) = (none, none) :=
  ⟨(handleEvent_userID_nonempty id memIncrBy).1
      (messageEvent (.ok (thanksMsg "++"))) { UserID := "U123", Change := 1 } (by decide),
    by decide⟩

end KarmaGo
